import Mathlib

/-!
Verification of the todo CLI (`src/main.rs`).

A shallow embedding of the todo-list command-line program. Each Rust
function that the claims mention is translated into a Lean definition:
pure logic becomes a pure function, the load-mutate-save commands become
functions from the in-memory collection to `Except String` (where
`.error` models "print a diagnostic and exit nonzero without writing"),
and the serde-derived JSON (de)serialization is embedded at the level of
JSON values (the textual layer of `serde_json` is not re-modelled; a
file's content is an `Option Json`, `none` meaning the file is absent).
u32 arithmetic is `Nat` with an explicit `% 2^32` at the one place the
source can overflow (`next_id`).
-/

set_option autoImplicit false

namespace TodoCli

/-- The modulus of Rust `u32` arithmetic, 2^32. -/
def U32_MOD : Nat := 4294967296

/-- Models Rust `str::to_lowercase` (character-wise lowering; the
program only ever compares names through this function on both sides,
and the built-in names are ASCII, where `Char.toLower` agrees with
Rust's mapping). Written over the underlying character list, which is
what `String.map Char.toLower` computes. -/
def rustLower (s : String) : String :=
  String.mk (s.data.map Char.toLower)

/-- Rust's `const BUILTIN_CATEGORIES: &[&str]` from the source. -/
def BUILTIN_CATEGORIES : List String :=
  ["work", "personal", "shopping", "health"]

/-- Rust's `enum Category` from the source: four built-in tags plus a
string-carrying custom tag. -/
inductive Category where
  | work
  | personal
  | shopping
  | health
  | custom (name : String)
deriving DecidableEq, Repr

/-- Display form of a category (Rust `impl fmt::Display for Category`): lowercase built-in name, or the
stored custom string. -/
def Category.display : Category → String
  | .work => "work"
  | .personal => "personal"
  | .shopping => "shopping"
  | .health => "health"
  | .custom name => name

/-- Rust's `fn parse_category`. The Rust body first checks
`custom_categories.iter().any(..)` and then re-scans with
`.find(..).unwrap()`; since `any p = true` exactly when `find? p` is
`some`, the two scans collapse to the single `find?` below. -/
def parse_category (name : String) (custom_categories : List String) :
    Except String Category :=
  let lower := rustLower name
  if lower = "work" then .ok .work
  else if lower = "personal" then .ok .personal
  else if lower = "shopping" then .ok .shopping
  else if lower = "health" then .ok .health
  else
    match custom_categories.find? (fun c => rustLower c = lower) with
    | some stored => .ok (.custom stored)
    | none => .error ("Unknown category: " ++ name)

/-- Rust's `struct Todo`. `id` is a `u32`, embedded as a `Nat` carrying the
invariant `id < U32_MOD` where it matters. -/
structure Todo where
  id : Nat
  text : String
  done : Bool
  category : Option Category
deriving DecidableEq, Repr

/-- Maximum id in the list: `todos.iter().map(|t| t.id).max().unwrap_or(0)`.
Over `Nat`, folding `max` with initial value `0` is exactly
`max().unwrap_or(0)`. -/
def maxId (todos : List Todo) : Nat :=
  todos.foldr (fun t m => max t.id m) 0

/-- Rust's `fn next_id`: successor of the maximum id in u32 arithmetic
(`+ 1` on a `u32` wraps modulo 2^32 when the maximum is `u32::MAX`). -/
def next_id (todos : List Todo) : Nat :=
  (maxId todos + 1) % U32_MOD

/-- Rust's `fn cmd_add` (the pure part: load is the argument, save is the
result). Returns the new collection and the id it assigned. -/
def cmd_add (todos : List Todo) (text : String) (category : Option Category) :
    List Todo × Nat :=
  let id := next_id todos
  (todos ++ [{ id := id, text := text, done := false, category := category }], id)

/-- The in-place mutation of `cmd_done`:
`todos.iter_mut().find(|t| t.id == id)` then `t.done = true` sets the
flag on the first record with the given id and leaves the rest alone. -/
def markDoneFirst : List Todo → Nat → List Todo
  | [], _ => []
  | t :: ts, id =>
    if t.id = id then { t with done := true } :: ts
    else t :: markDoneFirst ts id

/-- Rust's `fn cmd_done`: `.error` models printing "not found" and exiting
nonzero before any save; `.ok` carries the collection that is saved. -/
def cmd_done (todos : List Todo) (id : Nat) : Except String (List Todo) :=
  if todos.any (fun t => t.id = id) then .ok (markDoneFirst todos id)
  else .error ("Todo #" ++ toString id ++ " not found.")

/-- Rust's `fn cmd_remove`: `retain(|t| t.id != id)` then compare lengths;
unchanged length means nothing matched, so exit nonzero without saving. -/
def cmd_remove (todos : List Todo) (id : Nat) : Except String (List Todo) :=
  let kept := todos.filter (fun t => t.id ≠ id)
  if kept.length = todos.length then
    .error ("Todo #" ++ toString id ++ " not found.")
  else .ok kept

/-- Rust's `fn cmd_category_add`: reject a built-in collision (before even
loading the custom list), reject a case-insensitive duplicate, else
append the name with its casing intact. -/
def cmd_category_add (name : String) (cats : List String) :
    Except String (List String) :=
  let lower := rustLower name
  if BUILTIN_CATEGORIES.contains lower then
    .error ("'" ++ name ++ "' is a built-in category.")
  else if cats.any (fun c => rustLower c = lower) then
    .error ("Category '" ++ name ++ "' already exists.")
  else .ok (cats ++ [name])

/-! ## JSON serialization (serde derive semantics)

`#[derive(Serialize, Deserialize)]` with `#[serde(rename_all =
"lowercase")]` on `Category` uses serde's default *externally tagged*
enum representation: a unit variant becomes the plain string of its
(lowercased) name, while the newtype variant `Custom(String)` becomes a
single-entry object `{"custom": <string>}`. `Todo` serializes as an
object of its fields, with `category` skipped when `None`
(`skip_serializing_if = "Option::is_none"`) and defaulted to `None`
when absent (`#[serde(default)]`). -/

/-- JSON values, as far as this program produces and consumes them. -/
inductive Json where
  | jstr (s : String)
  | jnum (n : Nat)
  | jbool (b : Bool)
  | jarr (elems : List Json)
  | jobj (fields : List (String × Json))
deriving Repr

/-- Serialization of `Category` (serde externally tagged, lowercased
variant names). -/
def encodeCategory : Category → Json
  | .work => .jstr "work"
  | .personal => .jstr "personal"
  | .shopping => .jstr "shopping"
  | .health => .jstr "health"
  | .custom s => .jobj [("custom", .jstr s)]

/-- Deserialization of `Category`. -/
def decodeCategory : Json → Option Category
  | .jstr "work" => some .work
  | .jstr "personal" => some .personal
  | .jstr "shopping" => some .shopping
  | .jstr "health" => some .health
  | .jobj [("custom", .jstr s)] => some (.custom s)
  | _ => none

/-- Serialization of `Todo`: fields in declaration order, `category`
present only when `Some`. -/
def encodeTodo (t : Todo) : Json :=
  .jobj ([("id", .jnum t.id), ("text", .jstr t.text), ("done", .jbool t.done)] ++
    (match t.category with
     | none => []
     | some c => [("category", encodeCategory c)]))

/-- Deserialization of `Todo`: looks the fields up by name; `id` must
fit in a `u32` (serde rejects out-of-range numbers); a missing
`category` field defaults to `none`, a present but ill-formed one is an
error. -/
def decodeTodo (j : Json) : Option Todo :=
  match j with
  | .jobj fields =>
    match fields.lookup "id", fields.lookup "text", fields.lookup "done" with
    | some (.jnum n), some (.jstr txt), some (.jbool d) =>
      if n < U32_MOD then
        match fields.lookup "category" with
        | none => some { id := n, text := txt, done := d, category := none }
        | some cj =>
          match decodeCategory cj with
          | some c => some { id := n, text := txt, done := d, category := some c }
          | none => none
      else none
    | _, _, _ => none
  | _ => none

/-- Serialization of the todo collection (`Vec<Todo>` as a JSON array). -/
def encodeTodos (todos : List Todo) : Json :=
  .jarr (todos.map encodeTodo)

/-- Deserialization of the todo collection. -/
def decodeTodos : Json → Option (List Todo)
  | .jarr elems => elems.mapM decodeTodo
  | _ => none

/-- Serialization of the custom-category registry (`Vec<String>`). -/
def encodeCats (cats : List String) : Json :=
  .jarr (cats.map Json.jstr)

/-- Deserialization of the custom-category registry. -/
def decodeCats : Json → Option (List String)
  | .jarr elems => elems.mapM (fun j => match j with | .jstr s => some s | _ => none)
  | _ => none

/-- Rust's `fn load_json`: when the file is absent (`none`) return the default
collection; otherwise parse, where a parse failure (`none` result)
models the process exiting with a diagnostic. -/
def load_json {T : Type} (file : Option Json) (decode : Json → Option T)
    (dflt : T) : Option T :=
  match file with
  | none => some dflt
  | some j => decode j

/-- Rust's `fn load_todos` (with the content of `.todos.json` made explicit). -/
def load_todos (file : Option Json) : Option (List Todo) :=
  load_json file decodeTodos []

/-- Rust's `fn save_todos`: the JSON document written to `.todos.json`. -/
def save_todos (todos : List Todo) : Json :=
  encodeTodos todos

/-- Rust's `fn load_custom_categories`. -/
def load_custom_categories (file : Option Json) : Option (List String) :=
  load_json file decodeCats []

/-- Rust's `fn save_custom_categories`. -/
def save_custom_categories (cats : List String) : Json :=
  encodeCats cats

/-- Folding `cmd_add` over a batch of `(text, category)` pairs, starting
from a given collection: N successive invocations of the add command. -/
def addAll (todos : List Todo) : List (String × Option Category) → List Todo
  | [] => todos
  | (txt, cat) :: rest => addAll (cmd_add todos txt cat).1 rest

/-- Whether a JSON value is a plain string. -/
def Json.isString : Json → Bool
  | .jstr _ => true
  | _ => false

/-! ## Helper lemmas -/

theorem maxId_nil : maxId [] = 0 := rfl

theorem maxId_cons (t : Todo) (ts : List Todo) :
    maxId (t :: ts) = max t.id (maxId ts) := rfl

theorem le_maxId {ts : List Todo} {t : Todo} (h : t ∈ ts) : t.id ≤ maxId ts := by
  induction ts with
  | nil => cases h
  | cons u us ih =>
    rw [maxId_cons]
    rcases List.mem_cons.mp h with rfl | h2
    · exact le_max_left _ _
    · exact le_trans (ih h2) (le_max_right _ _)

theorem maxId_le {ts : List Todo} {b : Nat} (h : ∀ t ∈ ts, t.id ≤ b) :
    maxId ts ≤ b := by
  induction ts with
  | nil => exact Nat.zero_le b
  | cons u us ih =>
    rw [maxId_cons, max_le_iff]
    exact ⟨h u (List.mem_cons_self u us), ih fun t ht => h t (List.mem_cons_of_mem u ht)⟩

theorem maxId_eq_foldr (ts : List Todo) :
    maxId ts = (ts.map Todo.id).foldr max 0 := by
  rw [List.foldr_map]
  rfl

theorem foldr_max_range' (n : Nat) : ∀ s : Nat,
    (List.range' s n).foldr max 0 = if n = 0 then 0 else s + n - 1 := by
  induction n with
  | zero => intro s; rfl
  | succ m ih =>
    intro s
    rw [List.range'_succ, List.foldr_cons, ih (s + 1)]
    rcases Nat.eq_zero_or_pos m with rfl | hm
    · simp
    · have hne : m ≠ 0 := Nat.pos_iff_ne_zero.mp hm
      simp only [hne, if_false, Nat.succ_ne_zero, if_neg]
      omega

theorem decodeCategory_encodeCategory (c : Category) :
    decodeCategory (encodeCategory c) = some c := by
  cases c <;> rfl

theorem decodeTodo_encodeTodo (t : Todo) (h : t.id < U32_MOD) :
    decodeTodo (encodeTodo t) = some t := by
  obtain ⟨n, txt, d, cat⟩ := t
  simp only [Todo.id] at h
  match cat with
  | none =>
    have e : decodeTodo (encodeTodo (Todo.mk n txt d none)) =
        if n < U32_MOD then some (Todo.mk n txt d none) else none := rfl
    rw [e, if_pos h]
  | some Category.work =>
    have e : decodeTodo (encodeTodo (Todo.mk n txt d (some Category.work))) =
        if n < U32_MOD then some (Todo.mk n txt d (some Category.work)) else none := rfl
    rw [e, if_pos h]
  | some Category.personal =>
    have e : decodeTodo (encodeTodo (Todo.mk n txt d (some Category.personal))) =
        if n < U32_MOD then some (Todo.mk n txt d (some Category.personal)) else none := rfl
    rw [e, if_pos h]
  | some Category.shopping =>
    have e : decodeTodo (encodeTodo (Todo.mk n txt d (some Category.shopping))) =
        if n < U32_MOD then some (Todo.mk n txt d (some Category.shopping)) else none := rfl
    rw [e, if_pos h]
  | some Category.health =>
    have e : decodeTodo (encodeTodo (Todo.mk n txt d (some Category.health))) =
        if n < U32_MOD then some (Todo.mk n txt d (some Category.health)) else none := rfl
    rw [e, if_pos h]
  | some (Category.custom s) =>
    have e : decodeTodo (encodeTodo (Todo.mk n txt d (some (Category.custom s)))) =
        if n < U32_MOD then some (Todo.mk n txt d (some (Category.custom s))) else none := rfl
    rw [e, if_pos h]

theorem decodeTodos_encodeTodos (ts : List Todo) (h : ∀ t ∈ ts, t.id < U32_MOD) :
    decodeTodos (encodeTodos ts) = some ts := by
  induction ts with
  | nil => rfl
  | cons t rest ih =>
    have h1 : decodeTodo (encodeTodo t) = some t :=
      decodeTodo_encodeTodo t (h t (List.mem_cons_self t rest))
    have h2 : decodeTodos (encodeTodos rest) = some rest :=
      ih fun u hu => h u (List.mem_cons_of_mem t hu)
    simp only [encodeTodos, decodeTodos, List.map_cons, List.mapM_cons] at h2 ⊢
    rw [h1, h2]
    rfl

theorem decodeCats_encodeCats (cs : List String) :
    decodeCats (encodeCats cs) = some cs := by
  induction cs with
  | nil => rfl
  | cons c rest ih =>
    simp only [encodeCats, decodeCats, List.map_cons, List.mapM_cons] at ih ⊢
    rw [ih]
    rfl

theorem markDoneFirst_length (ts : List Todo) (id : Nat) :
    (markDoneFirst ts id).length = ts.length := by
  induction ts with
  | nil => rfl
  | cons t rest ih =>
    simp only [markDoneFirst]
    split
    · rfl
    · simp only [List.length_cons, ih]

theorem markDoneFirst_map_id (ts : List Todo) (id : Nat) :
    (markDoneFirst ts id).map Todo.id = ts.map Todo.id := by
  induction ts with
  | nil => rfl
  | cons t rest ih =>
    simp only [markDoneFirst]
    split
    · rfl
    · simp only [List.map_cons, ih]

theorem markDoneFirst_idem (ts : List Todo) (id : Nat) :
    markDoneFirst (markDoneFirst ts id) id = markDoneFirst ts id := by
  induction ts with
  | nil => rfl
  | cons t rest ih =>
    by_cases h : t.id = id
    · simp [markDoneFirst, h]
    · simp [markDoneFirst, h, ih]

theorem markDoneFirst_eq_map (ts : List Todo) (id : Nat)
    (hnd : (ts.map Todo.id).Nodup) :
    markDoneFirst ts id =
      ts.map fun t => if t.id = id then { t with done := true } else t := by
  induction ts with
  | nil => rfl
  | cons t rest ih =>
    simp only [List.map_cons, List.nodup_cons] at hnd
    by_cases h : t.id = id
    · have habsent : ∀ u ∈ rest, ¬u.id = id := fun u hu hc =>
        hnd.1 (h ▸ hc ▸ List.mem_map.mpr ⟨u, hu, rfl⟩)
      simp only [markDoneFirst, if_pos h, List.map_cons]
      rw [List.map_congr_left fun u hu => if_neg (habsent u hu)]
      simp
    · simp only [markDoneFirst, if_neg h, List.map_cons, ih hnd.2]

theorem addAll_ids (items : List (String × Option Category)) :
    ∀ ts : List Todo,
      ts.map Todo.id = List.range' 1 ts.length →
      ts.length + items.length < U32_MOD →
      (addAll ts items).map Todo.id = List.range' 1 (ts.length + items.length) := by
  induction items with
  | nil =>
    intro ts h1 _
    simpa [addAll] using h1
  | cons p rest ih =>
    obtain ⟨txt, cat⟩ := p
    intro ts h1 hb
    simp only [List.length_cons] at hb
    have hmax : maxId ts = ts.length := by
      rw [maxId_eq_foldr, h1, foldr_max_range' ts.length 1]
      split <;> omega
    have hnext : next_id ts = ts.length + 1 := by
      rw [next_id, hmax, Nat.mod_eq_of_lt (by omega)]
    have hstep : (cmd_add ts txt cat).1.map Todo.id =
        List.range' 1 (cmd_add ts txt cat).1.length := by
      show (ts ++ [Todo.mk (next_id ts) txt false cat]).map Todo.id =
        List.range' 1 (ts ++ [Todo.mk (next_id ts) txt false cat]).length
      rw [List.map_append, List.length_append, h1, List.map_singleton,
        List.length_singleton, List.range'_1_concat]
      simp [hnext, Nat.add_comm]
    have hlen : (cmd_add ts txt cat).1.length = ts.length + 1 := by
      show (ts ++ [Todo.mk (next_id ts) txt false cat]).length = ts.length + 1
      simp
    have hrec := ih (cmd_add ts txt cat).1 hstep (by rw [hlen]; omega)
    simp only [addAll, List.length_cons]
    rw [hrec, hlen]
    congr 1
    omega

/-! ## Claim theorems -/

/-- C1, counterexample: a todo with the custom category "Errands" is
persisted with its `category` field equal to the externally tagged
object containing the string, not a plain JSON string, so the claimed
shape `category?: string` does not hold for custom categories. -/
theorem C1_counterexample :
    encodeTodo (Todo.mk 1 "buy milk" false (some (Category.custom "Errands"))) =
      Json.jobj [("id", Json.jnum 1), ("text", Json.jstr "buy milk"),
        ("done", Json.jbool false),
        ("category", Json.jobj [("custom", Json.jstr "Errands")])]
    ∧ Json.isString (Json.jobj [("custom", Json.jstr "Errands")]) = false :=
  ⟨rfl, rfl⟩

/-- C1, amended: a persisted todo is the object of its fields, with the
`category` field present exactly when the record has a category; a
built-in category is serialized as the plain string of its lowercase
name, while a custom category is serialized as the externally tagged
single-entry object carrying the literal registered string (not as a
plain string). -/
theorem C1_category_serialization (t : Todo) :
    (∀ c, t.category = some c →
      encodeTodo t = Json.jobj [("id", Json.jnum t.id), ("text", Json.jstr t.text),
        ("done", Json.jbool t.done), ("category", encodeCategory c)])
    ∧ (t.category = none →
      encodeTodo t = Json.jobj [("id", Json.jnum t.id), ("text", Json.jstr t.text),
        ("done", Json.jbool t.done)])
    ∧ (∀ b, b ∈ [Category.work, Category.personal, Category.shopping, Category.health] →
        encodeCategory b = Json.jstr (Category.display b))
    ∧ (∀ s, encodeCategory (Category.custom s) = Json.jobj [("custom", Json.jstr s)]) := by
  refine ⟨fun c hc => ?_, fun hc => ?_, fun b hb => ?_, fun s => rfl⟩
  · simp [encodeTodo, hc]
  · simp [encodeTodo, hc]
  · fin_cases hb <;> rfl

/-- C1, witness for the amended theorem at a concrete record. -/
theorem C1_category_serialization_witness :
    encodeTodo { id := 1, text := "a", done := false, category := some Category.work } =
      Json.jobj [("id", Json.jnum 1), ("text", Json.jstr "a"),
        ("done", Json.jbool false), ("category", encodeCategory Category.work)] :=
  (C1_category_serialization
    { id := 1, text := "a", done := false, category := some Category.work }).1
    Category.work rfl

/-- C2, counterexample: in the store holding only the todo with id 2,
the current maximum is 2; removing it and adding a new todo assigns
identifier 1, not (old max − 1) + 1 = 2 — the assigned id is the
successor of the maximum of the *remaining* ids, and removing the
maximum makes its id available again. -/
theorem C2_counterexample :
    maxId [Todo.mk 2 "a" false none] = 2
    ∧ cmd_remove [Todo.mk 2 "a" false none] 2 = Except.ok []
    ∧ (cmd_add [] "b" none).2 = 1
    ∧ (cmd_add [] "b" none).2 ≠ (2 - 1) + 1 := by
  refine ⟨rfl, rfl, rfl, ?_⟩
  intro h
  rw [show (cmd_add [] "b" none).2 = 1 from rfl] at h
  omega

/-- C2, amended: starting from an empty store, adding N todos in
sequence assigns identifiers 1 through N (for N below 2^32); in
general the identifier assigned by add is one more than the maximum
identifier of the todos present at that moment (taken modulo 2^32), so
after removing the todo holding the current maximum the next assigned
identifier is (maximum of the remaining ids) + 1 — which can be smaller
than the old maximum and can equal the removed identifier, i.e.
identifiers can be reused. -/
theorem C2_id_assignment :
    (∀ items : List (String × Option Category), items.length < U32_MOD →
        (addAll [] items).map Todo.id = List.range' 1 items.length)
    ∧ (∀ (ts ts2 : List Todo) (txt : String) (cat : Option Category),
        cmd_remove ts (maxId ts) = Except.ok ts2 →
        (cmd_add ts2 txt cat).2 = (maxId ts2 + 1) % U32_MOD)
    ∧ (cmd_remove [Todo.mk 1 "a" false none, Todo.mk 2 "b" false none] 2 =
        Except.ok [Todo.mk 1 "a" false none]
      ∧ (cmd_add [Todo.mk 1 "a" false none] "c" none).2 = 2) := by
  refine ⟨fun items h => ?_, fun ts ts2 txt cat _ => rfl, rfl, rfl⟩
  simpa using addAll_ids items [] rfl (by simpa using h)

/-- C2, witness for the amended theorem: three adds from empty yield
identifiers 1, 2, 3. -/
theorem C2_id_assignment_witness :
    (addAll [] [("a", none), ("b", none), ("c", none)]).map Todo.id =
      List.range' 1 3 :=
  C2_id_assignment.1 [("a", none), ("b", none), ("c", none)]
    (by norm_num [U32_MOD])

/-- C3, counterexample: on a collection whose maximum identifier is
`u32::MAX`, add assigns the wrapped identifier 0, not one greater than
the current maximum. -/
theorem C3_counterexample :
    (cmd_add [{ id := U32_MOD - 1, text := "a", done := false, category := none }]
        "b" none).2 ≠
      maxId [{ id := U32_MOD - 1, text := "a", done := false, category := none }] + 1
    ∧ (cmd_add [{ id := U32_MOD - 1, text := "a", done := false, category := none }]
        "b" none).2 = 0 := by
  refine ⟨?_, rfl⟩
  intro h
  rw [show (cmd_add [{ id := U32_MOD - 1, text := "a", done := false, category := none }] "b" none).2 = 0 from rfl] at h
  rw [maxId_cons, maxId_nil] at h
  norm_num [U32_MOD] at h

/-- C3, amended: add appends exactly one record, carrying the assigned
identifier, the given text, completion flag `false` and the given
optional category, leaving every pre-existing record unchanged; the
assigned identifier is one greater than the current maximum identifier
(1 when the collection is empty) provided `max + 1` does not overflow a
`u32`; at maximum `u32::MAX` the assigned identifier wraps to 0. -/
theorem C3_add_spec (ts : List Todo) (txt : String) (cat : Option Category) :
    (cmd_add ts txt cat).1 =
      ts ++ [{ id := (cmd_add ts txt cat).2, text := txt, done := false, category := cat }]
    ∧ (maxId ts + 1 < U32_MOD → (cmd_add ts txt cat).2 = maxId ts + 1)
    ∧ (ts = [] → (cmd_add ts txt cat).2 = 1)
    ∧ (maxId ts = U32_MOD - 1 → (cmd_add ts txt cat).2 = 0) := by
  refine ⟨rfl, fun h => ?_, fun h => ?_, fun h => ?_⟩
  · simp [cmd_add, next_id, Nat.mod_eq_of_lt h]
  · subst h; rfl
  · simp only [cmd_add, next_id, h]
    norm_num [U32_MOD]

/-- C3, witness for the amended theorem: from the empty collection the
assigned identifier is 1. -/
theorem C3_add_spec_witness : (cmd_add [] "a" none).2 = 1 :=
  (C3_add_spec [] "a" none).2.2.1 rfl

theorem parse_category_toOption (name : String) (cats : List String) :
    (parse_category name cats).toOption =
      (if rustLower name = "work" then some Category.work
       else if rustLower name = "personal" then some Category.personal
       else if rustLower name = "shopping" then some Category.shopping
       else if rustLower name = "health" then some Category.health
       else (cats.find? (fun c => rustLower c = rustLower name)).map Category.custom) := by
  simp only [parse_category]
  split_ifs <;> try rfl
  cases cats.find? (fun c => rustLower c = rustLower name) <;> rfl

/-- C4: parse_category matches case-insensitively against the built-in
names and the custom entries (its visible result depends only on the
lowercased input, except for the input echoed in the error message); a
custom match returns the casing stored in the registry (a member of the
registry with the same lowercase form as the input); when nothing
matches, the result is an error naming the input. The embedding is a
pure function of its two arguments, so it has no side effects. -/
theorem C4_parse_category_spec (name : String) (cats : List String) :
    (∀ n2 : String, rustLower n2 = rustLower name →
        (parse_category n2 cats).toOption = (parse_category name cats).toOption)
    ∧ (∀ s, parse_category name cats = Except.ok (Category.custom s) →
        s ∈ cats ∧ rustLower s = rustLower name)
    ∧ (rustLower name = "work" → parse_category name cats = Except.ok Category.work)
    ∧ (rustLower name = "personal" → parse_category name cats = Except.ok Category.personal)
    ∧ (rustLower name = "shopping" → parse_category name cats = Except.ok Category.shopping)
    ∧ (rustLower name = "health" → parse_category name cats = Except.ok Category.health)
    ∧ (rustLower name ∉ BUILTIN_CATEGORIES →
        ∀ c ∈ cats, rustLower c = rustLower name →
          ∃ s ∈ cats, parse_category name cats = Except.ok (Category.custom s)
            ∧ rustLower s = rustLower name)
    ∧ (rustLower name ∉ BUILTIN_CATEGORIES →
        (∀ c ∈ cats, rustLower c ≠ rustLower name) →
          parse_category name cats = Except.error ("Unknown category: " ++ name)) := by
  have hnb4 : rustLower name ∉ BUILTIN_CATEGORIES →
      rustLower name ≠ "work" ∧ rustLower name ≠ "personal"
        ∧ rustLower name ≠ "shopping" ∧ rustLower name ≠ "health" := by
    intro h
    simp only [BUILTIN_CATEGORIES, List.mem_cons, List.not_mem_nil, or_false,
      not_or] at h
    exact ⟨h.1, h.2.1, h.2.2.1, h.2.2.2⟩
  refine ⟨fun n2 h => ?_, fun s h => ?_, fun h => ?_, fun h => ?_, fun h => ?_,
    fun h => ?_, fun hnb c hc hlow => ?_, fun hnb hall => ?_⟩
  · rw [parse_category_toOption, parse_category_toOption, h]
  · simp only [parse_category] at h
    split_ifs at h <;> try exact absurd h (by simp)
    revert h
    cases hf : cats.find? (fun c => rustLower c = rustLower name) with
    | none => intro h; exact absurd h (by simp)
    | some stored =>
      intro h
      have hs : stored = s := by
        simpa using h
      subst hs
      exact ⟨List.mem_of_find?_eq_some hf, by simpa using List.find?_some hf⟩
  · simp only [parse_category]
    rw [h]
    rfl
  · simp only [parse_category]
    rw [h]
    rfl
  · simp only [parse_category]
    rw [h]
    rfl
  · simp only [parse_category]
    rw [h]
    rfl
  · obtain ⟨h1, h2, h3, h4⟩ := hnb4 hnb
    have hsome : (cats.find? (fun c => rustLower c = rustLower name)).isSome :=
      List.find?_isSome.mpr ⟨c, hc, by simpa using hlow⟩
    obtain ⟨s, hs⟩ := Option.isSome_iff_exists.mp hsome
    refine ⟨s, List.mem_of_find?_eq_some hs, ?_, by simpa using List.find?_some hs⟩
    simp only [parse_category]
    rw [if_neg h1, if_neg h2, if_neg h3, if_neg h4, hs]
  · obtain ⟨h1, h2, h3, h4⟩ := hnb4 hnb
    have hnone : cats.find? (fun c => rustLower c = rustLower name) = none :=
      List.find?_eq_none.mpr fun x hx => by simpa using hall x hx
    simp only [parse_category]
    rw [if_neg h1, if_neg h2, if_neg h3, if_neg h4, hnone]

/-- C4, witness: concrete instances of the case-insensitivity, the
stored-casing return, a built-in acceptance and the error case, each
obtained from the main theorem. -/
theorem C4_parse_category_spec_witness :
    (parse_category "ERRANDS" ["Errands"]).toOption =
        (parse_category "errands" ["Errands"]).toOption
    ∧ ("Errands" ∈ ["Errands"] ∧ rustLower "Errands" = rustLower "errands")
    ∧ parse_category "WoRk" [] = Except.ok Category.work
    ∧ parse_category "nope" ["Errands"] =
        Except.error ("Unknown category: " ++ "nope") :=
  ⟨(C4_parse_category_spec "errands" ["Errands"]).1 "ERRANDS" rfl,
   (C4_parse_category_spec "errands" ["Errands"]).2.1 "Errands" rfl,
   (C4_parse_category_spec "WoRk" []).2.2.1 rfl,
   (C4_parse_category_spec "nope" ["Errands"]).2.2.2.2.2.2.2 (by decide)
     (by intro c hc; fin_cases hc; decide)⟩

/-- C5: on an identifier absent from the collection, both done and
remove produce the not-found error (modelling a nonzero exit with no
write, so the stored collection is untouched); on a present identifier,
remove keeps exactly the records with a different identifier, deleting
every record carrying the given one. -/
theorem C5_notfound_spec (ts : List Todo) (id : Nat) :
    ((∀ t ∈ ts, t.id ≠ id) →
        cmd_done ts id = Except.error ("Todo #" ++ toString id ++ " not found.")
        ∧ cmd_remove ts id = Except.error ("Todo #" ++ toString id ++ " not found."))
    ∧ ((∃ t ∈ ts, t.id = id) →
        cmd_remove ts id = Except.ok (ts.filter fun t => t.id ≠ id)
        ∧ ∀ t ∈ ts.filter (fun t => t.id ≠ id), t.id ≠ id) := by
  constructor
  · intro h
    have hany : ¬ts.any (fun t => t.id = id) = true := by
      simp only [List.any_eq_true, decide_eq_true_eq, not_exists]
      intro x
      rintro ⟨hx, hxe⟩
      exact h x hx hxe
    have hfe : ts.filter (fun t => t.id ≠ id) = ts :=
      List.filter_eq_self.mpr fun t ht => by simpa using h t ht
    constructor
    · rw [cmd_done, if_neg hany]
    · simp only [cmd_remove, hfe]
      simp
  · rintro ⟨t, ht, hte⟩
    have hlt : (ts.filter (fun t => t.id ≠ id)).length < ts.length :=
      List.length_filter_lt_length_iff_exists.mpr ⟨t, ht, by simp [hte]⟩
    constructor
    · simp only [cmd_remove]
      rw [if_neg (by omega)]
    · intro u hu
      simpa using List.of_mem_filter hu

/-- C5, witness: a concrete collection where done and remove reject an
absent identifier and remove deletes a present one. -/
theorem C5_notfound_spec_witness :
    (cmd_done [Todo.mk 1 "a" false none] 7 =
        Except.error ("Todo #" ++ toString 7 ++ " not found.")
      ∧ cmd_remove [Todo.mk 1 "a" false none] 7 =
        Except.error ("Todo #" ++ toString 7 ++ " not found."))
    ∧ cmd_remove [Todo.mk 1 "a" false none] 1 =
        Except.ok ([Todo.mk 1 "a" false none].filter fun t => t.id ≠ 1) :=
  ⟨(C5_notfound_spec [Todo.mk 1 "a" false none] 7).1
      (by intro t ht; fin_cases ht; decide),
   ((C5_notfound_spec [Todo.mk 1 "a" false none] 1).2
      ⟨Todo.mk 1 "a" false none, List.mem_singleton_self _, rfl⟩).1⟩

/-- C6: category-add rejects a name whose lowercase form matches a
built-in (for any input casing, independent of the registered custom
list), rejects a name matching an existing custom entry
case-insensitively, and otherwise appends the name itself — original
casing preserved — to the registry. -/
theorem C6_category_add_spec (name : String) (cats : List String) :
    (rustLower name ∈ BUILTIN_CATEGORIES →
        cmd_category_add name cats =
          Except.error ("'" ++ name ++ "' is a built-in category."))
    ∧ (rustLower name ∉ BUILTIN_CATEGORIES →
        (∃ c ∈ cats, rustLower c = rustLower name) →
        cmd_category_add name cats =
          Except.error ("Category '" ++ name ++ "' already exists."))
    ∧ (rustLower name ∉ BUILTIN_CATEGORIES →
        (∀ c ∈ cats, rustLower c ≠ rustLower name) →
        cmd_category_add name cats = Except.ok (cats ++ [name])) := by
  refine ⟨fun h => ?_, fun h1 h2 => ?_, fun h1 h2 => ?_⟩
  · simp only [cmd_category_add]
    rw [if_pos (by simpa [List.contains, List.elem_iff] using h)]
  · obtain ⟨c, hc, hce⟩ := h2
    simp only [cmd_category_add]
    rw [if_neg (by simpa [List.contains, List.elem_iff] using h1),
      if_pos (List.any_eq_true.mpr ⟨c, hc, by simpa using hce⟩)]
  · simp only [cmd_category_add]
    rw [if_neg (by simpa [List.contains, List.elem_iff] using h1),
      if_neg (by simp only [List.any_eq_true, decide_eq_true_eq, not_exists]
                 intro x
                 rintro ⟨hx, hxe⟩
                 exact h2 x hx hxe)]

/-- C6, witness: "WORK" is rejected as a built-in even with custom
entries present, "errands" collides with the registered "Errands", and
"Gym" is appended with its casing preserved. -/
theorem C6_category_add_spec_witness :
    cmd_category_add "WORK" ["Errands"] =
        Except.error ("'" ++ "WORK" ++ "' is a built-in category.")
    ∧ cmd_category_add "errands" ["Errands"] =
        Except.error ("Category '" ++ "errands" ++ "' already exists.")
    ∧ cmd_category_add "Gym" ["Errands"] = Except.ok (["Errands"] ++ ["Gym"]) :=
  ⟨(C6_category_add_spec "WORK" ["Errands"]).1 (by decide),
   (C6_category_add_spec "errands" ["Errands"]).2.1 (by decide)
     ⟨"Errands", List.mem_singleton_self _, by decide⟩,
   (C6_category_add_spec "Gym" ["Errands"]).2.2 (by decide)
     (by intro c hc; fin_cases hc; decide)⟩

/-- C8: loading from an absent file returns the default (empty)
collection, for the generic loader and for both concrete stores. -/
theorem C8_load_missing_file :
    (∀ (T : Type) (decode : Json → Option T) (dflt : T),
        load_json none decode dflt = some dflt)
    ∧ load_todos none = some []
    ∧ load_custom_categories none = some [] :=
  ⟨fun _ _ _ => rfl, rfl, rfl⟩

/-- C10: `next_id` is the successor of the maximum identifier in u32
arithmetic: when `max + 1` does not overflow the result is exactly
`max + 1` and is distinct from every identifier in the collection
(freshness); when some record holds `u32::MAX` the addition wraps to
0 modulo 2^32. -/
theorem C10_next_id_u32 (ts : List Todo) (h : ∀ t ∈ ts, t.id < U32_MOD) :
    (maxId ts + 1 < U32_MOD →
        next_id ts = maxId ts + 1 ∧ ∀ t ∈ ts, t.id ≠ next_id ts)
    ∧ ((∃ t ∈ ts, t.id = U32_MOD - 1) → next_id ts = 0) := by
  constructor
  · intro hlt
    have hn : next_id ts = maxId ts + 1 := by
      simp [next_id, Nat.mod_eq_of_lt hlt]
    refine ⟨hn, fun t ht => ?_⟩
    have := le_maxId ht
    omega
  · rintro ⟨t, ht, hid⟩
    have h1 : maxId ts ≤ U32_MOD - 1 := maxId_le fun u hu => by
      have := h u hu; omega
    have h2 : U32_MOD - 1 ≤ maxId ts := hid ▸ le_maxId ht
    have hmax : maxId ts = U32_MOD - 1 := le_antisymm h1 h2
    rw [next_id, hmax]
    norm_num [U32_MOD]

/-- C10, witness: both the exact-successor case and the wrap-around case
at concrete collections. -/
theorem C10_next_id_u32_witness :
    next_id [{ id := 7, text := "a", done := false, category := none }] = 8
    ∧ next_id [{ id := U32_MOD - 1, text := "b", done := false, category := none }] = 0 :=
  ⟨((C10_next_id_u32 _ (by decide)).1 (by decide)).1,
   (C10_next_id_u32 _ (by decide)).2 ⟨_, List.mem_singleton_self _, rfl⟩⟩

/-- C7: saving a collection and immediately loading it back reproduces
an equal collection, for the todo store (any collection of u32-valued
ids, hence in particular the empty one and mixed built-in/custom/absent
categories) and for the custom-category registry. -/
theorem C7_roundtrip :
    (∀ ts : List Todo, (∀ t ∈ ts, t.id < U32_MOD) →
        load_todos (some (save_todos ts)) = some ts)
    ∧ (∀ cs : List String,
        load_custom_categories (some (save_custom_categories cs)) = some cs) := by
  constructor
  · intro ts h
    simp only [load_todos, save_todos, load_json]
    exact decodeTodos_encodeTodos ts h
  · intro cs
    simp only [load_custom_categories, save_custom_categories, load_json]
    exact decodeCats_encodeCats cs

/-- C7, witness: the empty collections and a three-record collection
mixing a built-in category, a custom category and no category. -/
theorem C7_roundtrip_witness :
    load_todos (some (save_todos [])) = some []
    ∧ load_todos (some (save_todos
        [Todo.mk 1 "a" false (some Category.work),
         Todo.mk 2 "b" true (some (Category.custom "Errands")),
         Todo.mk 3 "c" false none])) =
      some [Todo.mk 1 "a" false (some Category.work),
         Todo.mk 2 "b" true (some (Category.custom "Errands")),
         Todo.mk 3 "c" false none]
    ∧ load_custom_categories (some (save_custom_categories [])) = some []
    ∧ load_custom_categories (some (save_custom_categories ["Errands"])) =
        some ["Errands"] :=
  ⟨C7_roundtrip.1 [] (by decide),
   C7_roundtrip.1 _ (by decide),
   C7_roundtrip.2 [],
   C7_roundtrip.2 ["Errands"]⟩

/-- C9: when the identifier is present and identifiers are unique, done
succeeds and the saved collection is the original with exactly the
matching record's completion flag set to true — its id, text and
category, and every other record, are unchanged (the pointwise map form
states this frame property); and done is idempotent: running it again
on its own output succeeds and changes nothing. -/
theorem C9_done_frame (ts : List Todo) (id : Nat)
    (hnd : (ts.map Todo.id).Nodup) (hmem : ∃ t ∈ ts, t.id = id) :
    cmd_done ts id =
      Except.ok (ts.map fun t => if t.id = id then { t with done := true } else t)
    ∧ (∀ ts2, cmd_done ts id = Except.ok ts2 →
        cmd_done ts2 id = Except.ok ts2) := by
  obtain ⟨t, ht, hte⟩ := hmem
  have hany : ts.any (fun t => t.id = id) = true :=
    List.any_eq_true.mpr ⟨t, ht, decide_eq_true hte⟩
  constructor
  · rw [cmd_done, if_pos hany, markDoneFirst_eq_map ts id hnd]
  · intro ts2 h2
    rw [cmd_done, if_pos hany] at h2
    have hts2 : ts2 = markDoneFirst ts id := by
      cases h2
      rfl
    subst hts2
    have hidm : (markDoneFirst ts id).map Todo.id = ts.map Todo.id :=
      markDoneFirst_map_id ts id
    have hmem2 : ∃ u ∈ markDoneFirst ts id, u.id = id := by
      have : id ∈ (markDoneFirst ts id).map Todo.id := by
        rw [hidm]
        exact List.mem_map.mpr ⟨t, ht, hte⟩
      obtain ⟨u, hu, hue⟩ := List.mem_map.mp this
      exact ⟨u, hu, hue⟩
    obtain ⟨u, hu, hue⟩ := hmem2
    have hany2 : (markDoneFirst ts id).any (fun t => t.id = id) = true :=
      List.any_eq_true.mpr ⟨u, hu, decide_eq_true hue⟩
    rw [cmd_done, if_pos hany2, markDoneFirst_idem]

/-- C9, witness: marking id 2 done in a two-record store flips only that
record's flag; the theorem is applied at a concrete store. -/
theorem C9_done_frame_witness :
    cmd_done [Todo.mk 1 "a" false none, Todo.mk 2 "b" false none] 2 =
      Except.ok ([Todo.mk 1 "a" false none, Todo.mk 2 "b" false none].map
        fun t => if t.id = 2 then { t with done := true } else t) :=
  (C9_done_frame [Todo.mk 1 "a" false none, Todo.mk 2 "b" false none] 2
    (by decide) (by decide)).1

end TodoCli
